import Mathlib

/-!
Verification of the pairing / signaling core of the BarshaTalk video server
(`videoserver.js`).

The server keeps three pieces of state in Redis:
  * a waiting set of socket ids          (`videochat:waiting`, SADD/SPOP/SREM),
  * one partner key per socket id        (`videochat:partner:<id>`, SET/GET/DEL),
  * one profile record per socket id     (`videochat:profile:<id>`).

We embed this state shallowly:
  * the waiting set is a duplicate-free `List String`; Redis `SPOP` (remove an
    arbitrary member) is determinised as removing the head of the list, and
    `SADD` appends when the member is absent;
  * the partner keyspace is a function `String → Option String` (one value per
    key, exactly as in Redis);
  * the profile keyspace is a function `String → Option Profile`.

Socket.IO liveness (`io.sockets.sockets.get(id)` plus `.connected`) is modelled
by a list `live` of currently connected socket ids.  Every `socket.emit` is
recorded as an element of an output list of `(recipient, event)` pairs.
-/

/-- A stored user profile, as written to Redis by the "ready" handler
(`{nickname, gender}`). -/
structure Profile where
  nickname : String
  gender : String
deriving DecidableEq, Repr

/-- A relayed payload.  WebRTC signaling payloads are JSON values; the relay
only distinguishes objects (`typeof payload === "object"`, spread-augmented
with `from`) from primitive values (forwarded verbatim).  Object field lists
are read with later entries overriding earlier ones, matching JS spread. -/
inductive Payload where
  | obj (fields : List (String × String))
  | prim (v : String)
deriving DecidableEq, Repr

/-- Events emitted to a socket (`socket.emit(name, …)` calls of the server). -/
inductive Event where
  | waiting
  | matched (partnerId : String) (initiator : Bool) (partnerNickname : String)
  | partnerDisconnected
  | relayed (name : String) (payload : Payload)
  | partnerInfo (nickname gender : String)
deriving DecidableEq, Repr

/-- One emission: recipient socket id together with the event sent to it. -/
abbrev Emit := String × Event

/-- The Redis partner keyspace `videochat:partner:*`: at most one partner id
stored per socket id (a single string value per key). -/
def Partners := String → Option String

/-- The empty partner keyspace. -/
def emptyP : Partners := fun _ => none

/-- Redis `SET key value` on the partner keyspace. -/
def setP (m : Partners) (k v : String) : Partners :=
  fun x => if x = k then some v else m x

/-- Redis `DEL key` on the partner keyspace. -/
def delP (m : Partners) (k : String) : Partners :=
  fun x => if x = k then none else m x

/-- Redis `SADD`: add a member to the waiting set unless already present. -/
def sadd (l : List String) (x : String) : List String :=
  if x ∈ l then l else l ++ [x]

/-- The server state held in Redis: waiting set, partner links, profiles. -/
structure SrvState where
  waiting : List String
  partners : Partners
  profiles : String → Option Profile

/-- The initial state: empty waiting set, no links, no profiles. -/
def initState : SrvState :=
  ⟨[], emptyP, fun _ => none⟩

/-- Nickname read in `pairVideoUsers`: the stored profile's nickname, or
`"Anonymous"` when no profile record exists. -/
def nickOf (profiles : String → Option Profile) (x : String) : String :=
  match profiles x with
  | some pr => pr.nickname
  | none => "Anonymous"

/-- `pairVideoUsers(socket1, socket2)`: reads both profiles, atomically sets
both directed partner keys (`MULTI … SET … SET … EXEC`), then emits a
"matched" event to each side — `initiator = true` to `socket1` (the caller of
`findVideoPartner`), `initiator = false` to the popped waiting partner. -/
def pairVideoUsers (s : SrvState) (id1 id2 : String) : SrvState × List Emit :=
  ( ⟨s.waiting, setP (setP s.partners id1 id2) id2 id1, s.profiles⟩,
    [ (id1, Event.matched id2 true (nickOf s.profiles id2)),
      (id2, Event.matched id1 false (nickOf s.profiles id1)) ] )

/-- The recursion of `findVideoPartner(socket)` over the waiting set, with the
`SPOP`ped member determinised as the list head.  Mirrors the source:
`if (partnerId && partnerId !== socket.id)` → liveness check → pair, or retry
on a stale candidate; otherwise (`null` pop or self pop) `SADD` the caller and
emit "waiting". -/
def findVideoPartnerAux (live : List String) (partners : Partners)
    (profiles : String → Option Profile) (id : String) :
    List String → SrvState × List Emit
  | [] => (⟨sadd [] id, partners, profiles⟩, [(id, Event.waiting)])
  | p :: rest =>
      if p = id then
        (⟨sadd rest id, partners, profiles⟩, [(id, Event.waiting)])
      else if p ∈ live then
        pairVideoUsers ⟨rest, partners, profiles⟩ id p
      else
        findVideoPartnerAux live partners profiles id rest

/-- `findVideoPartner(socket)` acting on the whole server state. -/
def findVideoPartner (live : List String) (s : SrvState) (id : String) :
    SrvState × List Emit :=
  findVideoPartnerAux live s.partners s.profiles id s.waiting

/-- `disconnectVideoUser(socket)`: look up the partner key; when present,
notify the partner (only if live), then `DEL` both directed keys; finally
`SREM` the caller from the waiting set. -/
def disconnectVideoUser (live : List String) (s : SrvState) (id : String) :
    SrvState × List Emit :=
  match s.partners id with
  | some pid =>
      ( ⟨(s.waiting).erase id, delP (delP s.partners id) pid, s.profiles⟩,
        if pid ∈ live then [(pid, Event.partnerDisconnected)] else [] )
  | none =>
      (⟨(s.waiting).erase id, s.partners, s.profiles⟩, [])

/-- JS spread `{ ...payload, from: senderId }` on an object payload: appending
wins under the later-entry-overrides reading of field lists. -/
def addFrom (fields : List (String × String)) (sender : String) :
    List (String × String) :=
  fields ++ [("from", sender)]

/-- The generic `relayEvent(eventName, payload)` closure: resolve the sender's
partner key; if absent, silently do nothing; if present and the partner socket
is live, emit the event to it, augmenting object payloads with `from`.  The
server state is never mutated by a relay. -/
def relayEvent (live : List String) (s : SrvState) (sender : String)
    (name : String) (payload : Payload) : List Emit :=
  match s.partners sender with
  | some pid =>
      if pid ∈ live then
        [(pid, Event.relayed name
            (match payload with
             | Payload.obj f => Payload.obj (addFrom f sender)
             | Payload.prim v => Payload.prim v))]
      else []
  | none => []

/-- The "getPartnerInfo" handler: guard `!data || !data.partnerId` (a missing
field and an empty-string id are both falsy), then answer with the target's
stored profile, or the `{Anonymous, unknown}` default.  No check that the
target is the requester's partner is performed. -/
def getPartnerInfo (s : SrvState) (requester : String)
    (target : Option String) : List Emit :=
  match target with
  | none => []
  | some t =>
      if t = "" then []
      else
        match s.profiles t with
        | some pr => [(requester, Event.partnerInfo pr.nickname pr.gender)]
        | none => [(requester, Event.partnerInfo "Anonymous" "unknown")]

/-- The "ready" message body.  A field that is missing or not a string in the
JSON payload is modelled as `none`. -/
structure ReadyData where
  nickname : Option String
  gender : Option String
deriving DecidableEq, Repr

/-- The validation guard of the "ready" handler:
`!data || typeof data.nickname !== "string" || data.nickname.length === 0 ||
data.nickname.length > 50 || typeof data.gender !== "string"` rejects. -/
def validReadyData (d : ReadyData) : Bool :=
  match d.nickname, d.gender with
  | some n, some _ => !(n.length = 0 : Bool) && (n.length ≤ 50 : Bool)
  | _, _ => false

/-- Validation including the `!data` case. -/
def validReadyOpt : Option ReadyData → Bool
  | none => false
  | some d => validReadyData d

/-- The profile written by a validated "ready": `data.nickname || "Anonymous"`
and `data.gender || "unknown"` — the only falsy string is `""`. -/
def storedProfile (d : ReadyData) : Profile :=
  { nickname :=
      match d.nickname with
      | some n => if n = "" then "Anonymous" else n
      | none => "Anonymous",
    gender :=
      match d.gender with
      | some g => if g = "" then "unknown" else g
      | none => "unknown" }

/-- The `socket.on("ready")` handler: validate, store the profile, then call
`findVideoPartner`.  On validation failure: no state change, no emission. -/
def readyHandler (live : List String) (s : SrvState) (id : String)
    (d : Option ReadyData) : SrvState × List Emit :=
  match d with
  | some dd =>
      if validReadyData dd then
        findVideoPartner live
          ⟨s.waiting, s.partners,
           fun x => if x = id then some (storedProfile dd) else s.profiles x⟩
          id
      else (s, [])
  | none => (s, [])

/-- One inbound message, tagged with the socket id it arrives on. -/
inductive Msg where
  | ready (id : String) (d : Option ReadyData)
  | relayMsg (id : String) (name : String) (p : Payload)
  | getInfo (id : String) (t : Option String)
  | reqNext (id : String)
  | disc (id : String)

/-- The socket a message arrives on. -/
def Msg.actor : Msg → String
  | .ready i _ => i
  | .relayMsg i _ _ => i
  | .getInfo i _ => i
  | .reqNext i => i
  | .disc i => i

/-- Dispatch of the `io.on("connection")` handlers: "ready",
"offer"/"answer"/"candidate"/"reaction" (via `relayEvent`), "getPartnerInfo",
"next" (`disconnectVideoUser` then `socket.emit("waiting")`), and transport
disconnect (`disconnectVideoUser`). -/
def step (live : List String) (a : Msg) (s : SrvState) :
    SrvState × List Emit :=
  match a with
  | .ready id d => readyHandler live s id d
  | .relayMsg id n p => (s, relayEvent live s id n p)
  | .getInfo id t => (s, getPartnerInfo s id t)
  | .reqNext id =>
      let r := disconnectVideoUser live s id
      (r.1, r.2 ++ [(id, Event.waiting)])
  | .disc id => disconnectVideoUser live s id

/-- A run of consecutive "ready" messages, accumulating emissions. -/
def runReady (live : List String) :
    List (String × ReadyData) → SrvState → SrvState × List Emit
  | [], s => (s, [])
  | c :: cs, s =>
      let r := readyHandler live s c.1 (some c.2)
      let r2 := runReady live cs r.1
      (r2.1, r.2 ++ r2.2)

/-- The state invariant of the pairing core: the waiting set is duplicate-free
(it models a Redis set), partner links are symmetric, and no waiting id has a
partner link.  "At most one outgoing link per id" holds by representation
(`Partners` stores one optional value per key). -/
def StateInv (s : SrvState) : Prop :=
  s.waiting.Nodup ∧
  (∀ a b, s.partners a = some b → s.partners b = some a) ∧
  (∀ a, a ∈ s.waiting → s.partners a = none)

/-- Protocol guard under which enqueue/match preserves the invariant: the
enqueuing id is neither waiting already nor an endpoint of a link.  All other
operations need no guard. -/
def readyGuard : Msg → SrvState → Prop
  | .ready id _, s => id ∉ s.waiting ∧ s.partners id = none
  | _, _ => True

/-- Number of discard-and-retry recursions (`await findVideoPartner(socket)`)
a `findVideoPartner` call performs: one per popped candidate that is neither
the caller nor live. -/
def retrySteps (live : List String) (id : String) : List String → Nat
  | [] => 0
  | p :: rest =>
      if p = id then 0
      else if p ∈ live then 0
      else retrySteps live id rest + 1

/-- Modelled from the spec: the behaviour claim C4 attributes to
`enqueueOrMatch` — "if a candidate `partnerId` is popped and
`partnerId == id`: discard and retry `enqueueOrMatch(id)`".  It differs from
`findVideoPartnerAux` only in the self-pop branch, which retries on the rest
of the pool instead of re-enqueuing and emitting "waiting". -/
def findVideoPartnerRetryAux (live : List String) (partners : Partners)
    (profiles : String → Option Profile) (id : String) :
    List String → SrvState × List Emit
  | [] => (⟨sadd [] id, partners, profiles⟩, [(id, Event.waiting)])
  | p :: rest =>
      if p = id then
        findVideoPartnerRetryAux live partners profiles id rest
      else if p ∈ live then
        pairVideoUsers ⟨rest, partners, profiles⟩ id p
      else
        findVideoPartnerRetryAux live partners profiles id rest

/-- `e` is a "matched" event addressed to `x`. -/
def isMatchedTo (x : String) (e : Emit) : Bool :=
  (e.1 == x) &&
    (match e.2 with
     | Event.matched _ _ _ => true
     | _ => false)

/-- `e` is a "matched" event with `initiator = true`. -/
def isInitiatorSignal (e : Emit) : Bool :=
  match e.2 with
  | Event.matched _ i _ => i
  | _ => false

/-- The caller is always a member of the waiting set after `SADD`. -/
lemma mem_sadd_self (l : List String) (x : String) : x ∈ sadd l x := by
  unfold sadd
  split_ifs with h
  · exact h
  · simp

/-- Every member of the waiting set produced by `findVideoPartnerAux` was
already waiting or is the caller itself: no other id is ever enqueued. -/
lemma mem_waiting_findVideoPartnerAux (live : List String) (P : Partners)
    (profs : String → Option Profile) (id x : String) :
    ∀ w : List String,
      x ∈ (findVideoPartnerAux live P profs id w).1.waiting → x ∈ w ∨ x = id := by
  intro w
  induction w with
  | nil =>
      intro hx
      simp [findVideoPartnerAux, sadd] at hx
      exact Or.inr hx
  | cons p rest ih =>
      intro hx
      by_cases hpi : p = id
      · simp only [findVideoPartnerAux, if_pos hpi] at hx
        unfold sadd at hx
        split_ifs at hx with hmem
        · exact Or.inl (List.mem_cons_of_mem _ hx)
        · rcases List.mem_append.mp hx with h | h
          · exact Or.inl (List.mem_cons_of_mem _ h)
          · simp at h
            exact Or.inr h
      · by_cases hpl : p ∈ live
        · simp only [findVideoPartnerAux, if_neg hpi, if_pos hpl,
            pairVideoUsers] at hx
          exact Or.inl (List.mem_cons_of_mem _ hx)
        · simp only [findVideoPartnerAux, if_neg hpi, if_neg hpl] at hx
          rcases ih hx with h | h
          · exact Or.inl (List.mem_cons_of_mem _ h)
          · exact Or.inr h

/-- C3: after `pairVideoUsers(a, b)` succeeds, each of `a` and `b` receives
exactly one "matched" signal carrying the partner's id and nickname, and
exactly one of the two signals has `initiator = true`, namely the one sent to
`a`, the participant that popped the waiting counterpart. -/
theorem c3_matched_signals (s : SrvState) (a b : String) (hab : a ≠ b) :
    ((pairVideoUsers s a b).2.filter (isMatchedTo a)).length = 1 ∧
    ((pairVideoUsers s a b).2.filter (isMatchedTo b)).length = 1 ∧
    (pairVideoUsers s a b).2.filter isInitiatorSignal
      = [(a, Event.matched b true (nickOf s.profiles b))] ∧
    (b, Event.matched a false (nickOf s.profiles a)) ∈ (pairVideoUsers s a b).2 := by
  have h1 : (a == b) = false := beq_eq_false_iff_ne.mpr hab
  have h2 : (b == a) = false := beq_eq_false_iff_ne.mpr (Ne.symm hab)
  refine ⟨?_, ?_, ?_, ?_⟩ <;>
    simp [pairVideoUsers, isMatchedTo, isInitiatorSignal, List.filter, h1, h2]

/-- C8: when the sender has a live partner, a relayed event delivers to the
partner exactly the object payload augmented with `from: sender`; when the
sender has no partner key, nothing is delivered and nothing is emitted back to
the sender. -/
theorem c8_relay_delivery (live : List String) (s : SrvState) (a name : String)
    (_hname : name ∈ ["offer", "answer", "candidate", "reaction"]) :
    (∀ b fields, s.partners a = some b → b ∈ live →
        relayEvent live s a name (Payload.obj fields)
          = [(b, Event.relayed name (Payload.obj (addFrom fields a)))]) ∧
    (∀ p, s.partners a = none → relayEvent live s a name p = []) := by
  constructor
  · intro b fields hb hbl
    simp [relayEvent, hb, hbl]
  · intro p hnone
    simp [relayEvent, hnone]

/-- C10: `getPartnerInfo` answers with the target's stored profile (or the
`{Anonymous, unknown}` default) for any requester and any non-empty target id,
with no dependence at all on the partner-link state `P`: any connected
participant can read any id's profile. -/
theorem c10_profile_read_unchecked (w : List String) (P : Partners)
    (profs : String → Option Profile) (r t : String) (ht : t ≠ "") :
    getPartnerInfo ⟨w, P, profs⟩ r (some t)
      = [(r, match profs t with
             | some pr => Event.partnerInfo pr.nickname pr.gender
             | none => Event.partnerInfo "Anonymous" "unknown")] := by
  cases hp : profs t <;> simp [getPartnerInfo, ht, hp]

/-- C9 (amended): a "ready" payload is rejected silently — no state mutation,
no emission — exactly when the data is missing, the nickname is missing or has
length 0 (no trimming is applied) or length above 50, or the gender is
missing; a well-formed payload stores the profile and attempts a match. -/
theorem c9_ready_validation (live : List String) (s : SrvState) (id : String)
    (d : Option ReadyData) :
    (validReadyOpt d = false → readyHandler live s id d = (s, [])) ∧
    (∀ dd, d = some dd → validReadyData dd = true →
        readyHandler live s id d
          = findVideoPartner live
              ⟨s.waiting, s.partners,
               fun x => if x = id then some (storedProfile dd) else s.profiles x⟩
              id) ∧
    (∀ dd : ReadyData, validReadyData dd = true ↔
        (∃ n, dd.nickname = some n ∧ 1 ≤ n.length ∧ n.length ≤ 50) ∧
        ∃ g, dd.gender = some g) := by
  refine ⟨?_, ?_, ?_⟩
  · intro hv
    cases d with
    | none => simp [readyHandler]
    | some dd =>
        simp only [validReadyOpt] at hv
        simp [readyHandler, hv]
  · intro dd hd hv
    subst hd
    simp [readyHandler, hv]
  · intro dd
    obtain ⟨n?, g?⟩ := dd
    cases n? <;> cases g? <;> simp [validReadyData] <;> omega

/-- C9 counterexample: a nickname consisting of a single space is empty after
trimming, yet the code accepts it — the profile is stored and a match is
attempted ("waiting" is emitted, the caller is enqueued), contradicting the
claimed silent rejection. -/
theorem c9_cex_space_nickname :
    validReadyData ⟨some " ", some "m"⟩ = true ∧
    (readyHandler [] initState "a" (some ⟨some " ", some "m"⟩)).2
      = [("a", Event.waiting)] ∧
    (readyHandler [] initState "a" (some ⟨some " ", some "m"⟩)).1.waiting
      = ["a"] ∧
    (readyHandler [] initState "a" (some ⟨some " ", some "m"⟩)).1.profiles "a"
      = some ⟨" ", "m"⟩ := by
  refine ⟨by decide, by decide, by decide, by decide⟩

/-- C4 (amended): when the popped candidate is the caller itself, the code does
not retry — it re-adds the caller to the waiting set and signals "waiting";
nevertheless no id is ever stored as its own partner. -/
theorem c4_self_pop_requeues (live : List String) (P : Partners)
    (profs : String → Option Profile) (id : String)
    (hP : ∀ x, P x ≠ some x) :
    (∀ rest, findVideoPartnerAux live P profs id (id :: rest)
        = (⟨sadd rest id, P, profs⟩, [(id, Event.waiting)])) ∧
    (∀ w x, (findVideoPartnerAux live P profs id w).1.partners x ≠ some x) := by
  constructor
  · intro rest
    simp [findVideoPartnerAux]
  · intro w
    induction w with
    | nil =>
        intro x
        simpa [findVideoPartnerAux] using hP x
    | cons p rest ih =>
        intro x
        by_cases hpi : p = id
        · simpa [findVideoPartnerAux, hpi] using hP x
        · by_cases hpl : p ∈ live
          · have hgoal : (findVideoPartnerAux live P profs id (p :: rest)).1.partners
                = setP (setP P id p) p id := by
              simp [findVideoPartnerAux, hpi, hpl, pairVideoUsers]
            rw [hgoal]
            intro hx
            simp only [setP] at hx
            split_ifs at hx with h1 h2
            · exact hpi ((Option.some.inj hx).trans h1).symm
            · exact hpi ((Option.some.inj hx).trans h2)
            · exact hP x hx
          · simpa [findVideoPartnerAux, hpi, hpl] using ih x

/-- C4 counterexample: with waiting pool `{a, b}`, both live, and `a` calling
`findVideoPartner`, the pop returns `a` itself; the code then re-enqueues `a`
and emits "waiting", leaving both ids unmatched — whereas the claimed
discard-and-retry semantics (`findVideoPartnerRetryAux`) would pair `a` with
`b`.  The claimed retry is not what the code does. -/
theorem c4_cex_no_retry_on_self_pop :
    (findVideoPartnerAux ["a", "b"] emptyP (fun _ => none) "a" ["a", "b"]).2
      = [("a", Event.waiting)] ∧
    (findVideoPartnerAux ["a", "b"] emptyP (fun _ => none) "a" ["a", "b"]).1.waiting
      = ["b", "a"] ∧
    (findVideoPartnerRetryAux ["a", "b"] emptyP (fun _ => none) "a" ["a", "b"]).2
      = [("a", Event.matched "b" true "Anonymous"),
         ("b", Event.matched "a" false "Anonymous")] := by
  refine ⟨by decide, by decide, by decide⟩

/-- C5 (amended): the number of discard-and-retry recursions of a single
`findVideoPartner` call is bounded by the size of the waiting pool — not by
any fixed constant — so every call terminates; when every candidate is the
caller itself or stale, the call falls back to enqueuing the caller and
signalling "waiting". -/
theorem c5_retry_bounded_by_pool (live : List String) (P : Partners)
    (profs : String → Option Profile) (id : String) (w : List String) :
    retrySteps live id w ≤ w.length ∧
    ((∀ x ∈ w, x = id ∨ x ∉ live) →
      (findVideoPartnerAux live P profs id w).2 = [(id, Event.waiting)] ∧
      id ∈ (findVideoPartnerAux live P profs id w).1.waiting) := by
  constructor
  · induction w with
    | nil => simp [retrySteps]
    | cons p rest ih =>
        by_cases h1 : p = id
        · simp [retrySteps, h1]
        · by_cases h2 : p ∈ live
          · simp [retrySteps, h1, h2]
          · simpa [retrySteps, h1, h2] using Nat.succ_le_succ ih
  · induction w with
    | nil =>
        intro _
        exact ⟨by simp [findVideoPartnerAux], by
          simpa [findVideoPartnerAux] using mem_sadd_self [] id⟩
    | cons p rest ih =>
        intro hall
        by_cases hpi : p = id
        · exact ⟨by simp [findVideoPartnerAux, hpi], by
            simpa [findVideoPartnerAux, hpi] using mem_sadd_self rest id⟩
        · have hpl : p ∉ live := (hall p (by simp)).resolve_left hpi
          have hrest : ∀ x ∈ rest, x = id ∨ x ∉ live :=
            fun x hx => hall x (List.mem_cons_of_mem _ hx)
          have := ih hrest
          exact ⟨by simpa [findVideoPartnerAux, hpi, hpl] using this.1, by
            simpa [findVideoPartnerAux, hpi, hpl] using this.2⟩

/-- C5 counterexample: a waiting pool holding six stale candidates makes a
single call perform six discard-and-retry recursions — the retry count grows
with the pool and is not capped at any small constant. -/
theorem c5_cex_retry_grows_with_pool :
    retrySteps [] "z" ["u1", "u2", "u3", "u4", "u5", "u6"] = 6 := by decide

/-- Evaluation of the double `SET` performed by `pairVideoUsers`. -/
lemma setPair_eval (P : Partners) (id p x : String) :
    setP (setP P id p) p id x
      = if x = p then some id else if x = id then some p else P x := by
  simp [setP]

/-- The waiting set left by a teardown is always the original set with the
caller removed, whether or not a link existed. -/
lemma disconnect_waiting (live : List String) (s : SrvState) (id : String) :
    (disconnectVideoUser live s id).1.waiting = s.waiting.erase id := by
  rcases hsp : s.partners id with _ | pid <;> simp [disconnectVideoUser, hsp]

/-- `findVideoPartner` preserves the state invariant provided the caller is
neither waiting already nor an endpoint of a link. -/
lemma stateInv_fvpAux (live : List String) (profs : String → Option Profile)
    (P : Partners) (id : String)
    (hsym : ∀ a b, P a = some b → P b = some a)
    (hid : P id = none) :
    ∀ w : List String, w.Nodup → (∀ a ∈ w, P a = none) → id ∉ w →
      StateInv (findVideoPartnerAux live P profs id w).1 := by
  intro w
  induction w with
  | nil =>
      intro _ _ _
      have hres : (findVideoPartnerAux live P profs id []).1
          = ⟨[id], P, profs⟩ := by
        simp [findVideoPartnerAux, sadd]
      rw [hres]
      refine ⟨List.nodup_singleton id, hsym, ?_⟩
      intro a ha
      simp at ha
      subst ha
      exact hid
  | cons p rest ih =>
      intro hnd hpool hidw
      have hpne : p ≠ id := fun h => hidw (h ▸ List.mem_cons_self p rest)
      have hPp : P p = none := hpool p (List.mem_cons_self p rest)
      by_cases hpl : p ∈ live
      · have hres : (findVideoPartnerAux live P profs id (p :: rest)).1
            = ⟨rest, setP (setP P id p) p id, profs⟩ := by
          simp [findVideoPartnerAux, hpne, hpl, pairVideoUsers]
        rw [hres]
        refine ⟨(List.nodup_cons.mp hnd).2, ?_, ?_⟩
        · intro x y hxy
          simp only [setPair_eval] at hxy ⊢
          by_cases h1 : x = p
          · rw [if_pos h1] at hxy
            have hy : y = id := (Option.some.inj hxy).symm
            subst hy
            rw [if_neg (Ne.symm hpne), if_pos rfl]
            exact congrArg some h1.symm
          · rw [if_neg h1] at hxy
            by_cases h2 : x = id
            · rw [if_pos h2] at hxy
              have hy : y = p := (Option.some.inj hxy).symm
              subst hy
              rw [if_pos rfl]
              exact congrArg some h2.symm
            · rw [if_neg h2] at hxy
              have hs := hsym x y hxy
              have hyp : y ≠ p := by
                intro h
                rw [h, hPp] at hs
                exact Option.noConfusion hs
              have hyid : y ≠ id := by
                intro h
                rw [h, hid] at hs
                exact Option.noConfusion hs
              rw [if_neg hyp, if_neg hyid]
              exact hs
        · intro x hx
          have hx' : x ∈ rest := hx
          simp only [setPair_eval]
          have hxp : x ≠ p := fun h => (List.nodup_cons.mp hnd).1 (h ▸ hx')
          have hxid : x ≠ id := fun h => hidw (h ▸ List.mem_cons_of_mem p hx')
          rw [if_neg hxp, if_neg hxid]
          exact hpool x (List.mem_cons_of_mem p hx')
      · have hres : (findVideoPartnerAux live P profs id (p :: rest)).1
            = (findVideoPartnerAux live P profs id rest).1 := by
          simp [findVideoPartnerAux, hpne, hpl]
        rw [hres]
        exact ih (List.nodup_cons.mp hnd).2
          (fun a ha => hpool a (List.mem_cons_of_mem p ha))
          (fun h => hidw (List.mem_cons_of_mem p h))

/-- Teardown preserves the state invariant unconditionally. -/
lemma stateInv_disconnect (live : List String) (s : SrvState) (id : String)
    (h : StateInv s) : StateInv (disconnectVideoUser live s id).1 := by
  obtain ⟨hnd, hsym, hpool⟩ := h
  cases hpid : s.partners id with
  | none =>
      simp only [disconnectVideoUser, hpid]
      exact ⟨hnd.erase id, hsym, fun a ha => hpool a (List.mem_of_mem_erase ha)⟩
  | some b =>
      simp only [disconnectVideoUser, hpid]
      have hPb : s.partners b = some id := hsym id b hpid
      refine ⟨hnd.erase id, ?_, ?_⟩
      · intro x y hxy
        simp only [delP] at hxy ⊢
        by_cases h1 : x = b
        · rw [if_pos h1] at hxy
          exact Option.noConfusion hxy
        · rw [if_neg h1] at hxy
          by_cases h2 : x = id
          · rw [if_pos h2] at hxy
            exact Option.noConfusion hxy
          · rw [if_neg h2] at hxy
            have hs := hsym x y hxy
            have hyid : y ≠ id := by
              intro h
              rw [h, hpid] at hs
              exact h1 (Option.some.inj hs).symm
            have hyb : y ≠ b := by
              intro h
              rw [h, hPb] at hs
              exact h2 (Option.some.inj hs).symm
            rw [if_neg hyb, if_neg hyid]
            exact hs
      · intro a ha
        have ha' : a ∈ s.waiting.erase id := ha
        simp only [delP]
        by_cases h1 : a = b
        · rw [if_pos h1]
        · rw [if_neg h1]
          by_cases h2 : a = id
          · rw [if_pos h2]
          · rw [if_neg h2]
            exact hpool a (List.mem_of_mem_erase ha')

/-- C2 (amended): teardown, relay and profile reads preserve the invariant
from any state satisfying it; enqueue/match ("ready") preserves it provided
the enqueuing id is not already waiting and has no partner link. -/
theorem c2_invariant_preservation (live : List String) (m : Msg) (s : SrvState)
    (hInv : StateInv s) (hg : readyGuard m s) :
    StateInv (step live m s).1 := by
  cases m with
  | ready id d =>
      obtain ⟨hw, hp⟩ := hg
      cases d with
      | none => exact hInv
      | some dd =>
          by_cases hv : validReadyData dd = true
          · obtain ⟨hnd, hsym, hpool⟩ := hInv
            have hres : (step live (Msg.ready id (some dd)) s).1
                = (findVideoPartnerAux live s.partners
                    (fun x => if x = id then some (storedProfile dd)
                              else s.profiles x)
                    id s.waiting).1 := by
              simp [step, readyHandler, hv, findVideoPartner]
            rw [hres]
            exact stateInv_fvpAux live _ s.partners id hsym hp
              s.waiting hnd hpool hw
          · have hres : (step live (Msg.ready id (some dd)) s).1 = s := by
              simp [step, readyHandler, hv]
            rw [hres]
            exact hInv
  | relayMsg id n p => exact hInv
  | getInfo id t => exact hInv
  | reqNext id => exact stateInv_disconnect live s id hInv
  | disc id => exact stateInv_disconnect live s id hInv

/-- The partner keyspace holding exactly the symmetric pair `x ↔ y`. -/
def pairP (x y : String) : Partners := setP (setP emptyP x y) y x

/-- A state with one symmetric link and an empty pool satisfies the
invariant. -/
lemma stateInv_pair_empty (x y : String) (hxy : x ≠ y)
    (profs : String → Option Profile) :
    StateInv ⟨[], pairP x y, profs⟩ := by
  refine ⟨List.nodup_nil, ?_, ?_⟩
  · intro a b hab
    simp only [pairP, setP, emptyP] at hab ⊢
    by_cases h1 : a = y
    · rw [if_pos h1] at hab
      have hb : b = x := (Option.some.inj hab).symm
      subst hb
      rw [if_neg hxy, if_pos rfl]
      exact congrArg some h1.symm
    · rw [if_neg h1] at hab
      by_cases h2 : a = x
      · rw [if_pos h2] at hab
        have hb : b = y := (Option.some.inj hab).symm
        subst hb
        rw [if_pos rfl]
        exact congrArg some h2.symm
      · rw [if_neg h2] at hab
        exact Option.noConfusion hab
  · intro a ha
    simp at ha

/-- The pre-state of the C2 counterexample: `a` and `b` are linked (as after a
successful match), the pool is empty. -/
def c2CexState : SrvState := ⟨[], pairP "a" "b", fun _ => none⟩

/-- The post-state: the already-partnered `a` sends a (valid) duplicate
"ready" message. -/
def c2CexStep : SrvState :=
  (step ["a", "b"] (Msg.ready "a" (some ⟨some "Al", some "m"⟩)) c2CexState).1

/-- C2 counterexample: from an invariant state in which `a` is partnered with
`b`, a duplicate "ready" from `a` (the enqueue/match operation) yields a state
where `a` is simultaneously in the waiting pool and an endpoint of a partner
link — the claimed preservation fails. -/
theorem c2_cex_duplicate_ready_breaks_invariant :
    StateInv c2CexState ∧ ¬ StateInv c2CexStep := by
  constructor
  · exact stateInv_pair_empty "a" "b" (by decide) _
  · intro h
    have h3 := h.2.2 "a" (by decide)
    have hp : c2CexStep.partners "a" = some "b" := by decide
    rw [hp] at h3
    exact Option.noConfusion h3

/-- C6: teardown is idempotent — with a live partner `b`, calling it twice in
a row emits exactly one "partnerDisconnected" (from the first call), and
afterwards neither the caller nor the former partner has a link entry or a
waiting-pool entry. -/
theorem c6_teardown_idempotent (live : List String) (s : SrvState)
    (id b : String) (hInv : StateInv s) (hb : s.partners id = some b)
    (hbl : b ∈ live) :
    (disconnectVideoUser live s id).2
      ++ (disconnectVideoUser live (disconnectVideoUser live s id).1 id).2
      = [(b, Event.partnerDisconnected)] ∧
    (disconnectVideoUser live (disconnectVideoUser live s id).1 id).1.partners id
      = none ∧
    (disconnectVideoUser live (disconnectVideoUser live s id).1 id).1.partners b
      = none ∧
    id ∉ (disconnectVideoUser live (disconnectVideoUser live s id).1 id).1.waiting ∧
    b ∉ (disconnectVideoUser live (disconnectVideoUser live s id).1 id).1.waiting := by
  obtain ⟨hnd, hsym, hpool⟩ := hInv
  have hPb : s.partners b = some id := hsym id b hb
  have hidw : id ∉ s.waiting := by
    intro h
    rw [hpool id h] at hb
    exact Option.noConfusion hb
  have hbw : b ∉ s.waiting := by
    intro h
    rw [hpool b h] at hPb
    exact Option.noConfusion hPb
  have h2 : delP (delP s.partners id) b id = none := by
    simp [delP]
  have h1 : disconnectVideoUser live s id
      = (⟨s.waiting.erase id, delP (delP s.partners id) b, s.profiles⟩,
         [(b, Event.partnerDisconnected)]) := by
    simp [disconnectVideoUser, hb, hbl]
  have h3 : disconnectVideoUser live
      (⟨s.waiting.erase id, delP (delP s.partners id) b, s.profiles⟩ : SrvState)
      id
      = (⟨(s.waiting.erase id).erase id, delP (delP s.partners id) b,
          s.profiles⟩, []) := by
    simp [disconnectVideoUser, h2]
  simp only [h1, h3]
  refine ⟨rfl, h2, by simp [delP], ?_, ?_⟩
  · intro hmem
    exact hidw (List.mem_of_mem_erase (List.mem_of_mem_erase hmem))
  · intro hmem
    exact hbw (List.mem_of_mem_erase (List.mem_of_mem_erase hmem))

/-- C7: after teardown of `a` (linked to `b`) the waiting pool is literally
unchanged — in particular `b` is not auto-re-enqueued — and no operation whose
actor is not `b` itself can ever put `b` into the pool. -/
theorem c7_partner_not_requeued (live : List String) (s : SrvState)
    (a b : String) (hInv : StateInv s) (hab : s.partners a = some b) :
    (disconnectVideoUser live s a).1.waiting = s.waiting ∧
    b ∉ (disconnectVideoUser live s a).1.waiting ∧
    (∀ (m : Msg) (live' : List String) (s' : SrvState), m.actor ≠ b →
        b ∉ s'.waiting → b ∉ (step live' m s').1.waiting) := by
  obtain ⟨hnd, hsym, hpool⟩ := hInv
  have hPb : s.partners b = some a := hsym a b hab
  have haw : a ∉ s.waiting := by
    intro h
    rw [hpool a h] at hab
    exact Option.noConfusion hab
  have hbw : b ∉ s.waiting := by
    intro h
    rw [hpool b h] at hPb
    exact Option.noConfusion hPb
  have h1 : (disconnectVideoUser live s a).1.waiting = s.waiting := by
    rw [disconnect_waiting]
    exact List.erase_of_not_mem haw
  refine ⟨h1, h1 ▸ hbw, ?_⟩
  intro m live' s' hm hbw'
  cases m with
  | ready id d =>
      cases d with
      | none => exact hbw'
      | some dd =>
          by_cases hv : validReadyData dd = true
          · have hres : (step live' (Msg.ready id (some dd)) s').1
                = (findVideoPartnerAux live' s'.partners
                    (fun x => if x = id then some (storedProfile dd)
                              else s'.profiles x)
                    id s'.waiting).1 := by
              simp [step, readyHandler, hv, findVideoPartner]
            rw [hres]
            intro hmem
            rcases mem_waiting_findVideoPartnerAux live' s'.partners _ id b
              s'.waiting hmem with h | h
            · exact hbw' h
            · exact hm (by simpa [Msg.actor] using h.symm)
          · have hres : (step live' (Msg.ready id (some dd)) s').1 = s' := by
              simp [step, readyHandler, hv]
            rw [hres]
            exact hbw'
  | relayMsg id n p => exact hbw'
  | getInfo id t => exact hbw'
  | reqNext id =>
      have hres : (step live' (Msg.reqNext id) s').1.waiting
          = s'.waiting.erase id := by
        simp [step, disconnect_waiting]
      rw [hres]
      intro hmem
      exact hbw' (List.mem_of_mem_erase hmem)
  | disc id =>
      have hres : (step live' (Msg.disc id) s').1.waiting
          = s'.waiting.erase id := disconnect_waiting live' s' id
      rw [hres]
      intro hmem
      exact hbw' (List.mem_of_mem_erase hmem)

/-- Invariant carried through a run of "ready" calls from ids in `seen`:
links are symmetric, irreflexive and confined to `seen`; waiting ids are
unlinked members of `seen`; the pool holds at most one id; pool parity follows
the number of calls. -/
def MatchInv (seen w : List String) (P : Partners) : Prop :=
  (∀ a b, P a = some b → P b = some a ∧ b ≠ a ∧ a ∈ seen) ∧
  (∀ x ∈ w, P x = none ∧ x ∈ seen) ∧
  (w = [] ∨ ∃ x, w = [x]) ∧
  w.length % 2 = seen.length % 2

/-- One "ready" call by a fresh, live id preserves `MatchInv`. -/
lemma matchInv_step (live : List String) (profs : String → Option Profile)
    (seen w : List String) (P : Partners) (id : String)
    (h : MatchInv seen w P) (hid : id ∉ seen) (hwl : ∀ x ∈ w, x ∈ live) :
    MatchInv (id :: seen)
      (findVideoPartnerAux live P profs id w).1.waiting
      (findVideoPartnerAux live P profs id w).1.partners := by
  obtain ⟨hsym, hpool, hone, hpar⟩ := h
  have hPid : P id = none := by
    cases hP : P id with
    | none => rfl
    | some b => exact absurd (hsym id b hP).2.2 hid
  rcases hone with hw | ⟨p, hw⟩
  · subst hw
    have hres : (findVideoPartnerAux live P profs id []).1
        = ⟨[id], P, profs⟩ := by
      simp [findVideoPartnerAux, sadd]
    rw [hres]
    refine ⟨?_, ?_, ?_, ?_⟩
    · intro a b hab
      obtain ⟨h1, h2, h3⟩ := hsym a b hab
      exact ⟨h1, h2, List.mem_cons_of_mem id h3⟩
    · intro x hx
      have hx' : x = id := by simpa using hx
      rw [hx']
      exact ⟨hPid, List.mem_cons_self id seen⟩
    · exact Or.inr ⟨id, rfl⟩
    · show ([id] : List String).length % 2 = (id :: seen).length % 2
      simp only [List.length_cons, List.length_nil] at hpar ⊢
      omega
  · subst hw
    have hp' := hpool p (List.mem_cons_self p [])
    have hpid : p ≠ id := fun h => hid (h ▸ hp'.2)
    have hpl : p ∈ live := hwl p (List.mem_cons_self p [])
    have hres : (findVideoPartnerAux live P profs id [p]).1
        = ⟨[], setP (setP P id p) p id, profs⟩ := by
      simp [findVideoPartnerAux, hpid, hpl, pairVideoUsers]
    rw [hres]
    refine ⟨?_, ?_, Or.inl rfl, ?_⟩
    · intro a b hab
      simp only [setPair_eval] at hab ⊢
      by_cases h1 : a = p
      · rw [if_pos h1] at hab
        have hb : id = b := Option.some.inj hab
        refine ⟨?_, ?_, ?_⟩
        · rw [← hb, if_neg (Ne.symm hpid), if_pos rfl]
          exact congrArg some h1.symm
        · rw [← hb, h1]
          exact Ne.symm hpid
        · rw [h1]
          exact List.mem_cons_of_mem id hp'.2
      · rw [if_neg h1] at hab
        by_cases h2 : a = id
        · rw [if_pos h2] at hab
          have hb : p = b := Option.some.inj hab
          refine ⟨?_, ?_, ?_⟩
          · rw [← hb, if_pos rfl]
            exact congrArg some h2.symm
          · rw [← hb, h2]
            exact hpid
          · rw [h2]
            exact List.mem_cons_self id seen
        · rw [if_neg h2] at hab
          have hs := hsym a b hab
          have hbp : b ≠ p := by
            intro h
            have hc := hs.1
            rw [h, hp'.1] at hc
            exact Option.noConfusion hc
          have hbid : b ≠ id := by
            intro h
            have hc := hs.1
            rw [h, hPid] at hc
            exact Option.noConfusion hc
          refine ⟨?_, hs.2.1, List.mem_cons_of_mem id hs.2.2⟩
          rw [if_neg hbp, if_neg hbid]
          exact hs.1
    · intro x hx
      have hx' : x ∈ ([] : List String) := hx
      simp at hx'
    · show ([] : List String).length % 2 = (id :: seen).length % 2
      simp only [List.length_cons, List.length_nil] at hpar ⊢
      omega

/-- A run of valid "ready" calls from fresh, live ids preserves `MatchInv`,
accumulating the callers into `seen`. -/
lemma runReady_matchInv (live : List String) :
    ∀ (cs : List (String × ReadyData)) (seen : List String) (s : SrvState),
      MatchInv seen s.waiting s.partners →
      (cs.map Prod.fst).Nodup →
      (∀ c ∈ cs, c.1 ∈ live ∧ validReadyData c.2 = true ∧ c.1 ∉ seen) →
      (∀ x ∈ s.waiting, x ∈ live) →
      MatchInv ((cs.map Prod.fst).reverse ++ seen)
        (runReady live cs s).1.waiting (runReady live cs s).1.partners := by
  intro cs
  induction cs with
  | nil =>
      intro seen s h _ _ _
      simpa [runReady] using h
  | cons c cs ih =>
      intro seen s h hnd hc hwl
      obtain ⟨hcl, hcv, hcs⟩ := hc c (List.mem_cons_self c cs)
      have hstep : (readyHandler live s c.1 (some c.2)).1
          = (findVideoPartnerAux live s.partners
              (fun x => if x = c.1 then some (storedProfile c.2)
                        else s.profiles x)
              c.1 s.waiting).1 := by
        simp [readyHandler, hcv, findVideoPartner]
      have h1 : MatchInv (c.1 :: seen)
          (readyHandler live s c.1 (some c.2)).1.waiting
          (readyHandler live s c.1 (some c.2)).1.partners := by
        rw [hstep]
        exact matchInv_step live _ seen s.waiting s.partners c.1 h hcs hwl
      have h2 : ∀ x ∈ (readyHandler live s c.1 (some c.2)).1.waiting,
          x ∈ live := by
        intro x hx
        rw [hstep] at hx
        rcases mem_waiting_findVideoPartnerAux live s.partners _ c.1 x
          s.waiting hx with hh | hh
        · exact hwl x hh
        · exact hh ▸ hcl
      have hnd2 : (c.1 :: cs.map Prod.fst).Nodup := by simpa using hnd
      have hnotin : c.1 ∉ cs.map Prod.fst := (List.nodup_cons.mp hnd2).1
      have hc' : ∀ d ∈ cs,
          d.1 ∈ live ∧ validReadyData d.2 = true ∧ d.1 ∉ c.1 :: seen := by
        intro d hd
        obtain ⟨ha, hb, hcc⟩ := hc d (List.mem_cons_of_mem c hd)
        refine ⟨ha, hb, ?_⟩
        intro hmem
        rcases List.mem_cons.mp hmem with he | he
        · exact hnotin (he ▸ List.mem_map_of_mem Prod.fst hd)
        · exact hcc he
      have hrec := ih (c.1 :: seen) (readyHandler live s c.1 (some c.2)).1
        h1 (List.nodup_cons.mp hnd2).2 hc' h2
      have hlst : (((c :: cs).map Prod.fst).reverse ++ seen : List String)
          = (cs.map Prod.fst).reverse ++ (c.1 :: seen) := by
        simp
      rw [hlst]
      have hrun : (runReady live (c :: cs) s).1
          = (runReady live cs (readyHandler live s c.1 (some c.2)).1).1 := rfl
      rw [hrun]
      exact hrec

/-- C1: any sequence of valid "ready" calls from distinct, live ids starting
from the empty state yields partner links forming a perfect matching over the
ids actually paired — symmetric, irreflexive, confined to the callers — with
every waiting id unmatched, and the waiting pool holding exactly
`N % 2` ids (at most the one unmatched id, present exactly when N is odd). -/
theorem c1_perfect_matching (live : List String)
    (calls : List (String × ReadyData))
    (hnd : (calls.map Prod.fst).Nodup)
    (hcond : ∀ c ∈ calls, c.1 ∈ live ∧ validReadyData c.2 = true) :
    (∀ a b, (runReady live calls initState).1.partners a = some b →
        (runReady live calls initState).1.partners b = some a ∧ b ≠ a ∧
        a ∈ calls.map Prod.fst ∧ b ∈ calls.map Prod.fst) ∧
    (∀ x ∈ (runReady live calls initState).1.waiting,
        (runReady live calls initState).1.partners x = none ∧
        x ∈ calls.map Prod.fst) ∧
    (runReady live calls initState).1.waiting.length = calls.length % 2 := by
  have hinit : MatchInv [] initState.waiting initState.partners := by
    refine ⟨?_, ?_, Or.inl rfl, rfl⟩
    · intro a b hab
      exact Option.noConfusion hab
    · intro x hx
      exact absurd hx (List.not_mem_nil x)
  have hrun := runReady_matchInv live calls [] initState hinit hnd
    (fun c hc => ⟨(hcond c hc).1, (hcond c hc).2, List.not_mem_nil c.1⟩)
    (fun x hx => absurd hx (List.not_mem_nil x))
  obtain ⟨hsym, hpool, hone, hpar⟩ := hrun
  have hmemiff : ∀ z : String,
      z ∈ (calls.map Prod.fst).reverse ++ ([] : List String) ↔
        z ∈ calls.map Prod.fst := by
    intro z
    simp
  refine ⟨?_, ?_, ?_⟩
  · intro a b hab
    obtain ⟨h1, h2, h3⟩ := hsym a b hab
    refine ⟨h1, h2, (hmemiff a).mp h3, ?_⟩
    obtain ⟨_, _, h3'⟩ := hsym b a h1
    exact (hmemiff b).mp h3'
  · intro x hx
    obtain ⟨h1, h2⟩ := hpool x hx
    exact ⟨h1, (hmemiff x).mp h2⟩
  · have hlen : ((calls.map Prod.fst).reverse ++ ([] : List String)).length
        = calls.length := by simp
    rw [hlen] at hpar
    rcases hone with hcase | ⟨x, hcase⟩
    · rw [hcase] at hpar ⊢
      simp at hpar ⊢
      omega
    · rw [hcase] at hpar ⊢
      simp at hpar ⊢
      omega

/-- The empty initial state satisfies the state invariant. -/
lemma stateInv_init : StateInv initState :=
  ⟨List.nodup_nil, fun _ _ hab => Option.noConfusion hab,
   fun a ha => absurd ha (List.not_mem_nil a)⟩

/-- A concrete three-caller scenario used to instantiate the run theorems. -/
def wCalls : List (String × ReadyData) :=
  [("a", ⟨some "Ann", some "f"⟩), ("b", ⟨some "Bob", some "m"⟩),
   ("c", ⟨some "Cy", some "o"⟩)]

/-- The live sockets of the concrete scenario. -/
def wLive : List String := ["a", "b", "c"]

/-- C1 witness: the three-caller scenario — distinct live ids, valid
payloads — satisfies the hypotheses, and the run yields the matching
properties. -/
theorem c1_perfect_matching_witness :
    (wCalls.map Prod.fst).Nodup ∧
    (∀ c ∈ wCalls, c.1 ∈ wLive ∧ validReadyData c.2 = true) ∧
    ((∀ a b, (runReady wLive wCalls initState).1.partners a = some b →
        (runReady wLive wCalls initState).1.partners b = some a ∧ b ≠ a ∧
        a ∈ wCalls.map Prod.fst ∧ b ∈ wCalls.map Prod.fst) ∧
     (∀ x ∈ (runReady wLive wCalls initState).1.waiting,
        (runReady wLive wCalls initState).1.partners x = none ∧
        x ∈ wCalls.map Prod.fst) ∧
     (runReady wLive wCalls initState).1.waiting.length = wCalls.length % 2) :=
  ⟨by decide, by decide,
   c1_perfect_matching wLive wCalls (by decide) (by decide)⟩

/-- C2 witness: a first "ready" from a fresh id on the empty state satisfies
the guard, and the invariant is preserved. -/
theorem c2_invariant_preservation_witness :
    StateInv initState ∧
    readyGuard (Msg.ready "a" (some ⟨some "Ann", some "f"⟩)) initState ∧
    StateInv (step ["a"] (Msg.ready "a" (some ⟨some "Ann", some "f"⟩))
      initState).1 :=
  ⟨stateInv_init, ⟨List.not_mem_nil "a", rfl⟩,
   c2_invariant_preservation ["a"] (Msg.ready "a" (some ⟨some "Ann", some "f"⟩))
     initState stateInv_init ⟨List.not_mem_nil "a", rfl⟩⟩

/-- C3 witness: pairing the distinct ids `a` and `b` emits the two matched
signals with the initiator flag on `a`'s signal only. -/
theorem c3_matched_signals_witness :
    ("a" : String) ≠ "b" ∧
    (((pairVideoUsers initState "a" "b").2.filter (isMatchedTo "a")).length
        = 1 ∧
     ((pairVideoUsers initState "a" "b").2.filter (isMatchedTo "b")).length
        = 1 ∧
     (pairVideoUsers initState "a" "b").2.filter isInitiatorSignal
       = [("a", Event.matched "b" true (nickOf initState.profiles "b"))] ∧
     ("b", Event.matched "a" false (nickOf initState.profiles "a"))
       ∈ (pairVideoUsers initState "a" "b").2) :=
  ⟨by decide, c3_matched_signals initState "a" "b" (by decide)⟩

/-- C4 witness: with no links stored, a self-pop by `a` re-enqueues `a`, and
no reachable partner map ever maps an id to itself. -/
theorem c4_self_pop_requeues_witness :
    (∀ x, emptyP x ≠ some x) ∧
    ((∀ rest, findVideoPartnerAux ["b"] emptyP (fun _ => none) "a" ("a" :: rest)
        = (⟨sadd rest "a", emptyP, fun _ => none⟩, [("a", Event.waiting)])) ∧
     (∀ w x, (findVideoPartnerAux ["b"] emptyP (fun _ => none) "a" w).1.partners x
        ≠ some x)) :=
  ⟨fun _ h => Option.noConfusion h,
   c4_self_pop_requeues ["b"] emptyP (fun _ => none) "a"
     (fun _ h => Option.noConfusion h)⟩

/-- C5 witness: on a two-candidate stale pool, the retry count respects the
pool-size bound and the call falls back to enqueue-and-wait. -/
theorem c5_retry_bounded_by_pool_witness :
    retrySteps [] "z" ["u", "v"] ≤ (["u", "v"] : List String).length ∧
    ((findVideoPartnerAux [] emptyP (fun _ => none) "z" ["u", "v"]).2
        = [("z", Event.waiting)] ∧
     "z" ∈ (findVideoPartnerAux [] emptyP (fun _ => none) "z" ["u", "v"]).1.waiting) :=
  ⟨(c5_retry_bounded_by_pool [] emptyP (fun _ => none) "z" ["u", "v"]).1,
   (c5_retry_bounded_by_pool [] emptyP (fun _ => none) "z" ["u", "v"]).2
     (by decide)⟩

/-- C6 witness: `a` linked to a live `b`; two consecutive teardowns of `a`
emit exactly one "partnerDisconnected" and clean both sides. -/
theorem c6_teardown_idempotent_witness :
    (⟨[], pairP "a" "b", fun _ => none⟩ : SrvState).partners "a" = some "b" ∧
    ("b" : String) ∈ (["b"] : List String) ∧
    ((disconnectVideoUser ["b"] ⟨[], pairP "a" "b", fun _ => none⟩ "a").2
        ++ (disconnectVideoUser ["b"]
            (disconnectVideoUser ["b"] ⟨[], pairP "a" "b", fun _ => none⟩ "a").1
            "a").2
      = [("b", Event.partnerDisconnected)] ∧
     (disconnectVideoUser ["b"]
        (disconnectVideoUser ["b"] ⟨[], pairP "a" "b", fun _ => none⟩ "a").1
        "a").1.partners "a" = none ∧
     (disconnectVideoUser ["b"]
        (disconnectVideoUser ["b"] ⟨[], pairP "a" "b", fun _ => none⟩ "a").1
        "a").1.partners "b" = none ∧
     "a" ∉ (disconnectVideoUser ["b"]
        (disconnectVideoUser ["b"] ⟨[], pairP "a" "b", fun _ => none⟩ "a").1
        "a").1.waiting ∧
     "b" ∉ (disconnectVideoUser ["b"]
        (disconnectVideoUser ["b"] ⟨[], pairP "a" "b", fun _ => none⟩ "a").1
        "a").1.waiting) :=
  ⟨by decide, by decide,
   c6_teardown_idempotent ["b"] ⟨[], pairP "a" "b", fun _ => none⟩ "a" "b"
     (stateInv_pair_empty "a" "b" (by decide) (fun _ => none))
     (by decide) (by decide)⟩

/-- C7 witness: tearing down `a` (linked to `b`) leaves the empty pool
unchanged, `b` is absent from it, and no action by another socket can enqueue
`b`. -/
theorem c7_partner_not_requeued_witness :
    (⟨[], pairP "a" "b", fun _ => none⟩ : SrvState).partners "a" = some "b" ∧
    ((disconnectVideoUser ["b"] ⟨[], pairP "a" "b", fun _ => none⟩ "a").1.waiting
        = (⟨[], pairP "a" "b", fun _ => none⟩ : SrvState).waiting ∧
     "b" ∉ (disconnectVideoUser ["b"]
        ⟨[], pairP "a" "b", fun _ => none⟩ "a").1.waiting ∧
     (∀ (m : Msg) (live' : List String) (s' : SrvState), m.actor ≠ "b" →
        "b" ∉ s'.waiting → "b" ∉ (step live' m s').1.waiting)) :=
  ⟨by decide,
   c7_partner_not_requeued ["b"] ⟨[], pairP "a" "b", fun _ => none⟩ "a" "b"
     (stateInv_pair_empty "a" "b" (by decide) (fun _ => none)) (by decide)⟩

/-- C8 witness: `a` linked to a live `b`; an "offer" relays the object payload
augmented with `from: a` to `b`. -/
theorem c8_relay_delivery_witness :
    ("offer" : String) ∈ ["offer", "answer", "candidate", "reaction"] ∧
    relayEvent ["b"] ⟨[], pairP "a" "b", fun _ => none⟩ "a" "offer"
        (Payload.obj [("sdp", "x")])
      = [("b", Event.relayed "offer"
            (Payload.obj (addFrom [("sdp", "x")] "a")))] :=
  ⟨by decide,
   (c8_relay_delivery ["b"] ⟨[], pairP "a" "b", fun _ => none⟩ "a" "offer"
     (by decide)).1 "b" [("sdp", "x")] (by decide) (by decide)⟩

/-- C9 witness: a missing payload is rejected with no state change and no
emission, while a valid payload stores the profile and attempts a match. -/
theorem c9_ready_validation_witness :
    validReadyOpt (none : Option ReadyData) = false ∧
    readyHandler [] initState "a" none = (initState, []) ∧
    validReadyData ⟨some "Ann", some "f"⟩ = true ∧
    readyHandler [] initState "a" (some ⟨some "Ann", some "f"⟩)
      = findVideoPartner []
          ⟨initState.waiting, initState.partners,
           fun x => if x = "a" then some (storedProfile ⟨some "Ann", some "f"⟩)
                    else initState.profiles x⟩
          "a" :=
  ⟨by decide,
   (c9_ready_validation [] initState "a" none).1 (by decide),
   by decide,
   (c9_ready_validation [] initState "a" (some ⟨some "Ann", some "f"⟩)).2.1
     ⟨some "Ann", some "f"⟩ rfl (by decide)⟩

/-- C10 witness: a requester with partner map ignored reads the default
profile of an id that stored none. -/
theorem c10_profile_read_unchecked_witness :
    ("t" : String) ≠ "" ∧
    getPartnerInfo ⟨[], pairP "a" "b", fun _ => none⟩ "r" (some "t")
      = [("r", Event.partnerInfo "Anonymous" "unknown")] :=
  ⟨by decide,
   c10_profile_read_unchecked [] (pairP "a" "b") (fun _ => none) "r" "t"
     (by decide)⟩
